import Mathlib

/-
Verification development for the cgoffline repository (Go): a CoinGecko
sync engine consisting of a retried HTTP API client, batch-upsert
repositories over a relational store, and sync orchestrators.

Shallow embedding conventions:
- Go float64 fields are modelled as rational numbers (only order
  comparisons occur in the verified code paths);
- Go time.Time is modelled as Int (the zero value 0 plays the role of
  the Go zero time for the IsZero check); gorm.DeletedAt is Option Int;
- Go pointer fields (*T, nullable) are modelled as Option;
- []byte raw JSON payloads are modelled as String;
- a SQL table is a list of rows; INSERT ... ON CONFLICT is a function on
  that list; the gorm auto-increment surrogate key is assigned as
  (max existing id) + 1 on insert;
- database errors are injected through an explicit per-record failure
  oracle (fails : row -> Bool), modelling a failing Exec/Save;
- gorm db.Transaction body semantics: on error the state is rolled back
  to the state before the call and the error is returned;
- HTTP fetch attempts are an oracle (attempt index -> Except FetchError
  result); FetchError distinguishes the error classes produced by the
  fetch helpers (transport, non-200 status, body read, json unmarshal);
- unbounded Go loops (pagination) take an explicit fuel argument.
-/

/-- domain.Coin (internal/domain/coin.go): a cryptocurrency row keyed by
the natural key CoingeckoID (unique index). -/
structure Coin where
  id : Nat
  coingeckoID : String
  symbol : String
  name : String
  image : Option String
  currentPrice : Option Rat
  marketCap : Option Rat
  marketCapRank : Option Int
  fullyDilutedValuation : Option Rat
  totalVolume : Option Rat
  high24h : Option Rat
  low24h : Option Rat
  priceChange24h : Option Rat
  priceChangePercentage24h : Option Rat
  marketCapChange24h : Option Rat
  marketCapChangePercentage24h : Option Rat
  circulatingSupply : Option Rat
  totalSupply : Option Rat
  maxSupply : Option Rat
  ath : Option Rat
  athChangePercentage : Option Rat
  athDate : Option Int
  atl : Option Rat
  atlChangePercentage : Option Rat
  atlDate : Option Int
  lastUpdated : Option Int
  createdAt : Int
  updatedAt : Int
  deletedAt : Option Int
deriving Repr, DecidableEq

/-- domain.Exchange (internal/domain/exchange.go), keyed by CoingeckoID. -/
structure Exchange where
  id : Nat
  coingeckoID : String
  name : String
  yearEstablished : Option Int
  country : Option String
  description : Option String
  url : Option String
  image : Option String
  hasTradingIncentive : Option Bool
  trustScore : Option Int
  trustScoreRank : Option Int
  tradeVolume24hBTC : Option Rat
  tradeVolume24hBTCNormalized : Option Rat
  createdAt : Int
  updatedAt : Int
  deletedAt : Option Int
deriving Repr, DecidableEq

/-- domain.CoinCategory (internal/domain), keyed by CoingeckoID. -/
structure CoinCategory where
  id : Nat
  coingeckoID : String
  name : String
  createdAt : Int
  updatedAt : Int
  deletedAt : Option Int
deriving Repr, DecidableEq

/-- domain.AssetPlatform (internal/domain/asset_platform.go): the string
field ID is itself the primary key (no surrogate key). -/
structure AssetPlatform where
  id : String
  chainIdentifier : Option Int
  name : String
  shortName : Option String
  nativeCoinID : Option String
  createdAt : Int
  updatedAt : Int
  deletedAt : Option Int
deriving Repr, DecidableEq

/-- domain.CoinMarketData (internal/domain/coin.go): composite-unique on
(CoinID, ExchangeID). -/
structure CoinMarketData where
  id : Nat
  coinID : Nat
  exchangeID : Nat
  price : Option Rat
  volume24h : Option Rat
  volumePercentage : Option Rat
  lastUpdated : Option Int
  createdAt : Int
  updatedAt : Int
  deletedAt : Option Int
deriving Repr, DecidableEq

/-- domain.CoinDetail (internal/domain): raw JSON detail payload plus
denormalized fields, keyed by CoingeckoID (unique index). -/
structure CoinDetail where
  id : Nat
  coinID : Nat
  coingeckoID : String
  rawJSON : String
  genesisDate : Option Int
  hashingAlgo : Option String
  categories : Option String
  homepage : Option String
  lastUpdatedAt : Option Int
  createdAt : Int
  updatedAt : Int
  deletedAt : Option Int
deriving Repr, DecidableEq

/-- domain.CoinTicker (internal/domain/coin_ticker.go): raw tickers
payload per coin and page; uniqueness by (CoinID, Page). -/
structure CoinTicker where
  id : Nat
  coinID : Nat
  page : Nat
  rawJSON : String
  createdAt : Int
  updatedAt : Int
  deletedAt : Option Int
deriving Repr, DecidableEq

/-- Outcome of a repository call: the stored state after the call plus
the error returned to the caller (none on success). -/
structure DbOutcome (σ : Type) where
  state : σ
  err : Option String
deriving Repr, DecidableEq

/-- gorm db.Transaction semantics: run the body; on success commit the
body's final state; on error roll the stored state back to the state
before the call and return the error. -/
def transaction {σ : Type} (db : σ) (body : σ → Except String σ) : DbOutcome σ :=
  match body db with
  | Except.ok s => { state := s, err := none }
  | Except.error e => { state := db, err := some e }

/-- Auto-increment surrogate key assignment for an insert: one more than
the largest id present in the table. -/
def nextId {ρ : Type} (rowId : ρ → Nat) (table : List ρ) : Nat :=
  (table.foldl (fun m r => max m (rowId r)) 0) + 1

/-
Repository layer: internal/repository/*.go.
-/

/-- Effect of the coins INSERT ... ON CONFLICT (coingecko_id) DO UPDATE
row (coinRepository.UpsertBatch SQL): the conflicting row keeps its
surrogate id, its coingecko_id and its created_at (absent from the SET
list); every other column is taken from the EXCLUDED (incoming) row. -/
def coinConflictUpdate (old exc : Coin) : Coin :=
  { exc with id := old.id, coingeckoID := old.coingeckoID, createdAt := old.createdAt }

/-- One conflict-aware upsert on the coins table: update in place when a
row with the same coingecko_id exists, otherwise insert a fresh row. -/
def coinsInsertOnConflict (table : List Coin) (c : Coin) : List Coin :=
  if table.any (fun r => r.coingeckoID = c.coingeckoID) then
    table.map (fun r => if r.coingeckoID = c.coingeckoID then coinConflictUpdate r c else r)
  else
    table ++ [{ c with id := nextId Coin.id table }]

/-- Transaction body of coinRepository.UpsertBatch: one upsert per valid
coin; the failure oracle models a failing tx.Exec, whose error aborts the
transaction wrapped as in the source. -/
def coinUpsertTx (fails : Coin → Bool) : List Coin → List Coin → Except String (List Coin)
  | table, [] => Except.ok table
  | table, c :: rest =>
    if fails c then
      Except.error ("failed to upsert coin " ++ c.coingeckoID ++ ": db error")
    else
      coinUpsertTx fails (coinsInsertOnConflict table c) rest

/-- coinRepository.UpsertBatch (repository/coin_repository.go): early
return on an empty batch, filter out coins with empty coingecko_id
(logged, not fatal), early return when nothing valid remains, then one
transaction doing a conflict-aware upsert per remaining coin. -/
def coinRepository.UpsertBatch (fails : Coin → Bool) (db : List Coin) (coins : List Coin) :
    DbOutcome (List Coin) :=
  if coins.length = 0 then { state := db, err := none }
  else
    let validCoins := coins.filter (fun c => c.coingeckoID ≠ "")
    if validCoins.length = 0 then { state := db, err := none }
    else transaction db (fun tx => coinUpsertTx fails tx validCoins)

/-- Effect of the exchanges INSERT ... ON CONFLICT (coingecko_id) DO
UPDATE row (exchangeRepository.UpsertBatch SQL): id, coingecko_id and
created_at are kept, every other column comes from the incoming row. -/
def exchangeConflictUpdate (old exc : Exchange) : Exchange :=
  { exc with id := old.id, coingeckoID := old.coingeckoID, createdAt := old.createdAt }

/-- One conflict-aware upsert on the exchanges table. -/
def exchangesInsertOnConflict (table : List Exchange) (e : Exchange) : List Exchange :=
  if table.any (fun r => r.coingeckoID = e.coingeckoID) then
    table.map (fun r => if r.coingeckoID = e.coingeckoID then exchangeConflictUpdate r e else r)
  else
    table ++ [{ e with id := nextId Exchange.id table }]

/-- Transaction body of exchangeRepository.UpsertBatch. -/
def exchangeUpsertTx (fails : Exchange → Bool) :
    List Exchange → List Exchange → Except String (List Exchange)
  | table, [] => Except.ok table
  | table, e :: rest =>
    if fails e then
      Except.error ("failed to upsert exchange " ++ e.coingeckoID ++ ": db error")
    else
      exchangeUpsertTx fails (exchangesInsertOnConflict table e) rest

/-- exchangeRepository.UpsertBatch (repository/exchange_repository.go):
same shape as the coin batch upsert, filtering empty coingecko_id. -/
def exchangeRepository.UpsertBatch (fails : Exchange → Bool) (db : List Exchange)
    (exchanges : List Exchange) : DbOutcome (List Exchange) :=
  if exchanges.length = 0 then { state := db, err := none }
  else
    let validExchanges := exchanges.filter (fun e => e.coingeckoID ≠ "")
    if validExchanges.length = 0 then { state := db, err := none }
    else transaction db (fun tx => exchangeUpsertTx fails tx validExchanges)

/-- Effect of the coin_categories INSERT ... ON CONFLICT (coingecko_id)
DO UPDATE row (coinCategoryRepository.UpsertBatch SQL). -/
def categoryConflictUpdate (old exc : CoinCategory) : CoinCategory :=
  { exc with id := old.id, coingeckoID := old.coingeckoID, createdAt := old.createdAt }

/-- One conflict-aware upsert on the coin_categories table. -/
def categoriesInsertOnConflict (table : List CoinCategory) (c : CoinCategory) :
    List CoinCategory :=
  if table.any (fun r => r.coingeckoID = c.coingeckoID) then
    table.map (fun r => if r.coingeckoID = c.coingeckoID then categoryConflictUpdate r c else r)
  else
    table ++ [{ c with id := nextId CoinCategory.id table }]

/-- Transaction body of coinCategoryRepository.UpsertBatch. -/
def categoryUpsertTx (fails : CoinCategory → Bool) :
    List CoinCategory → List CoinCategory → Except String (List CoinCategory)
  | table, [] => Except.ok table
  | table, c :: rest =>
    if fails c then
      Except.error ("failed to upsert coin category " ++ c.coingeckoID ++ ": db error")
    else
      categoryUpsertTx fails (categoriesInsertOnConflict table c) rest

/-- coinCategoryRepository.UpsertBatch: same shape as the coin batch
upsert, filtering empty coingecko_id. -/
def coinCategoryRepository.UpsertBatch (fails : CoinCategory → Bool) (db : List CoinCategory)
    (categories : List CoinCategory) : DbOutcome (List CoinCategory) :=
  if categories.length = 0 then { state := db, err := none }
  else
    let validCategories := categories.filter (fun c => c.coingeckoID ≠ "")
    if validCategories.length = 0 then { state := db, err := none }
    else transaction db (fun tx => categoryUpsertTx fails tx validCategories)

/-- gorm tx.Save on an AssetPlatform (string primary key ID): with a
zero-value ("") primary key Save runs Create (insert); with a set key it
updates the existing row, falling back to Create when no row matched. -/
def assetPlatformSave (table : List AssetPlatform) (p : AssetPlatform) : List AssetPlatform :=
  if p.id = "" then table ++ [p]
  else if table.any (fun r => r.id = p.id) then
    table.map (fun r => if r.id = p.id then p else r)
  else table ++ [p]

/-- Transaction body of assetPlatformRepository.UpsertBatch: one
tx.Save per record. There is no empty-key filter in the source. -/
def assetPlatformUpsertTx (fails : AssetPlatform → Bool) :
    List AssetPlatform → List AssetPlatform → Except String (List AssetPlatform)
  | table, [] => Except.ok table
  | table, p :: rest =>
    if fails p then
      Except.error ("failed to upsert asset platform " ++ p.id ++ ": db error")
    else
      assetPlatformUpsertTx fails (assetPlatformSave table p) rest

/-- assetPlatformRepository.UpsertBatch
(repository/asset_platform_repository.go): early return on an empty
batch, then a transaction saving every record in order, with no
filtering of records whose natural key is empty. -/
def assetPlatformRepository.UpsertBatch (fails : AssetPlatform → Bool)
    (db : List AssetPlatform) (platforms : List AssetPlatform) : DbOutcome (List AssetPlatform) :=
  if platforms.length = 0 then { state := db, err := none }
  else transaction db (fun tx => assetPlatformUpsertTx fails tx platforms)

/-- Effect of the coin_market_data INSERT ... ON CONFLICT
(coin_id, exchange_id) DO UPDATE row: id, coin_id, exchange_id and
created_at are kept, every other column comes from the incoming row. -/
def marketDataConflictUpdate (old exc : CoinMarketData) : CoinMarketData :=
  { exc with
    id := old.id, coinID := old.coinID, exchangeID := old.exchangeID,
    createdAt := old.createdAt }

/-- One conflict-aware upsert on the coin_market_data table (composite
natural key coin_id, exchange_id). -/
def marketDataInsertOnConflict (table : List CoinMarketData) (d : CoinMarketData) :
    List CoinMarketData :=
  if table.any (fun r => r.coinID = d.coinID ∧ r.exchangeID = d.exchangeID) then
    table.map (fun r =>
      if r.coinID = d.coinID ∧ r.exchangeID = d.exchangeID then marketDataConflictUpdate r d
      else r)
  else
    table ++ [{ d with id := nextId CoinMarketData.id table }]

/-- Transaction body of coinMarketDataRepository.UpsertBatch. -/
def marketDataUpsertTx (fails : CoinMarketData → Bool) :
    List CoinMarketData → List CoinMarketData → Except String (List CoinMarketData)
  | table, [] => Except.ok table
  | table, d :: rest =>
    if fails d then
      Except.error ("failed to upsert market data for coin " ++ toString d.coinID ++
        " on exchange " ++ toString d.exchangeID ++ ": db error")
    else
      marketDataUpsertTx fails (marketDataInsertOnConflict table d) rest

/-- Validity filter of coinMarketDataRepository.UpsertBatch: both
foreign keys non-zero and a price present. -/
def marketDataValid (d : CoinMarketData) : Bool :=
  d.coinID ≠ 0 && d.exchangeID ≠ 0 && d.price.isSome

/-- coinMarketDataRepository.UpsertBatch
(repository/coin_market_data_repository.go): early return on an empty
batch, filter out invalid records (logged, not fatal), early return
when nothing valid remains, then one transaction doing a conflict-aware
upsert per remaining record. -/
def coinMarketDataRepository.UpsertBatch (fails : CoinMarketData → Bool)
    (db : List CoinMarketData) (marketData : List CoinMarketData) :
    DbOutcome (List CoinMarketData) :=
  if marketData.length = 0 then { state := db, err := none }
  else
    let validMarketData := marketData.filter (fun d => marketDataValid d)
    if validMarketData.length = 0 then { state := db, err := none }
    else transaction db (fun tx => marketDataUpsertTx fails tx validMarketData)

/-
API client: internal/service/coingecko_client.go.
-/

/-- The error classes a fetch helper (fetchCoins and friends) can
return: transport failure, non-200 HTTP status, body read failure, JSON
unmarshal failure. -/
inductive FetchError where
  | transport (msg : String)
  | httpStatus (code : Nat) (body : String)
  | readBody (msg : String)
  | unmarshal (msg : String)
deriving Repr, DecidableEq

/-- The wrapped message each fetch helper attaches to its error class. -/
def FetchError.message : FetchError → String
  | FetchError.transport msg => "failed to execute request: " ++ msg
  | FetchError.httpStatus code body =>
      "API request failed with status " ++ toString code ++ ": " ++ body
  | FetchError.readBody msg => "failed to read response body: " ++ msg
  | FetchError.unmarshal msg => "failed to unmarshal response: " ++ msg

/-- The retry loop shared by the client getters: attempts are indexed
from 0; the loop runs the current attempt and, on error, retries until
the remaining-retries budget is exhausted, keeping only the last error.
Returns the list of attempt indices actually performed together with
the final result. The loop never inspects which class of error
occurred. -/
def retryFetch {α : Type} (attempts : Nat → Except FetchError α) :
    Nat → Nat → List Nat × Except FetchError α
  | attempt, 0 => ([attempt], attempts attempt)
  | attempt, rem + 1 =>
    match attempts attempt with
    | Except.ok v => ([attempt], Except.ok v)
    | Except.error _ =>
      let rest := retryFetch attempts (attempt + 1) rem
      (attempt :: rest.1, rest.2)

/-- CoinGeckoClient.GetCoins: runs fetchCoins up to retryCount + 1 times
(the fetch-attempt oracle models one fetchCoins call per attempt index)
and, after exhausting retries, wraps the last error; on success returns
the fetched coins. Also returns the performed attempt indices. -/
def CoinGeckoClient.GetCoins (retryCount : Nat)
    (attempts : Nat → Except FetchError (List Coin)) :
    List Nat × Except String (List Coin) :=
  let r := retryFetch attempts 0 retryCount
  match r.2 with
  | Except.ok coins => (r.1, Except.ok coins)
  | Except.error e => (r.1, Except.error ("failed to fetch coins: " ++ e.message))

/-
Sync orchestrator for coins: internal/service/coin_service.go, SyncCoins.
-/

/-- Result of one SyncCoins run: the page numbers for which a fetch was
issued, the coins table afterwards, the running total of fetched
records, and the error returned (none on success). -/
structure SyncCoinsResult where
  requestedPages : List Nat
  state : List Coin
  totalFetched : Nat
  err : Option String
deriving Repr, DecidableEq

/-- The SyncCoins pagination loop. getCoins is the client call for a
page (page number, perPage); fails is the db failure oracle for the
batch upserts. Fuel bounds the loop (the source bounds it with a 5
minute context timeout); running out of fuel models that deadline. -/
def syncCoinsLoop (getCoins : Nat → Nat → Except String (List Coin)) (fails : Coin → Bool)
    (perPage : Nat) : Nat → Nat → List Coin → Nat → SyncCoinsResult
  | 0, _, db, total =>
    { requestedPages := [], state := db, totalFetched := total,
      err := some "context deadline exceeded" }
  | fuel + 1, page, db, total =>
    match getCoins page perPage with
    | Except.error e =>
      { requestedPages := [page], state := db, totalFetched := total,
        err := some ("failed to fetch coins page " ++ toString page ++ ": " ++ e) }
    | Except.ok apiCoins =>
      if apiCoins.length = 0 then
        { requestedPages := [page], state := db, totalFetched := total, err := none }
      else
        let out := coinRepository.UpsertBatch fails db apiCoins
        match out.err with
        | some e =>
          { requestedPages := [page], state := out.state, totalFetched := total,
            err := some ("failed to store coins page " ++ toString page ++ ": " ++ e) }
        | none =>
          if apiCoins.length < perPage then
            { requestedPages := [page], state := out.state,
              totalFetched := total + apiCoins.length, err := none }
          else
            let rest := syncCoinsLoop getCoins fails perPage fuel (page + 1) out.state
              (total + apiCoins.length)
            { rest with requestedPages := page :: rest.requestedPages }

/-- coinService.SyncCoins: starts at page 1 with perPage = 250 and a
zero running total, driving the pagination loop over the coins table. -/
def coinService.SyncCoins (getCoins : Nat → Nat → Except String (List Coin))
    (fails : Coin → Bool) (db : List Coin) (fuel : Nat) : SyncCoinsResult :=
  syncCoinsLoop getCoins fails 250 fuel 1 db 0

/-
Detail and ticker persistence: repository/coin_detail_repository.go and
the coin ticker repository.
-/

/-- coinDetailRepository.Upsert: Where(CoingeckoID).Assign.FirstOrCreate
semantics: the matched row (by coingecko_id) is overwritten with the
incoming record (keeping its surrogate id); otherwise a fresh row is
inserted. CreatedAt is set to now when zero and UpdatedAt is always set
to now. -/
def coinDetailRepository.Upsert (now : Int) (table : List CoinDetail) (d : CoinDetail) :
    List CoinDetail :=
  let d2 := { d with
    createdAt := if d.createdAt = 0 then now else d.createdAt,
    updatedAt := now }
  if table.any (fun r => r.coingeckoID = d2.coingeckoID) then
    table.map (fun r =>
      if r.coingeckoID = d2.coingeckoID then { d2 with id := r.id } else r)
  else
    table ++ [{ d2 with id := nextId CoinDetail.id table }]

/-- coinTickerRepository.Upsert: FirstOrCreate keyed by (coin_id, page),
with the same timestamp handling as the detail upsert. -/
def coinTickerRepository.Upsert (now : Int) (table : List CoinTicker) (t : CoinTicker) :
    List CoinTicker :=
  let t2 := { t with
    createdAt := if t.createdAt = 0 then now else t.createdAt,
    updatedAt := now }
  if table.any (fun r => r.coinID = t2.coinID ∧ r.page = t2.page) then
    table.map (fun r =>
      if r.coinID = t2.coinID ∧ r.page = t2.page then { t2 with id := r.id } else r)
  else
    table ++ [{ t2 with id := nextId CoinTicker.id table }]

/-
Volume-filtered detail and ticker sync: coinService.SyncCoinsData.
-/

/-- The /coins/{id} payload as consumed by SyncCoinsData: the raw
marshalled JSON plus the optional denormalized values that the service
extracts from the map (each Option collapses the type-assertion plus
parse pipeline of the source: none when the key is absent, mistyped or
unparsable). -/
structure CoinDataPayload where
  raw : String
  genesisDate : Option Int
  hashingAlgo : Option String
  categories : Option String
  homepage : Option String
  lastUpdatedAt : Option Int
deriving Repr, DecidableEq

/-- The /coins/{id}/tickers payload as consumed by SyncCoinsData: the
raw marshalled JSON plus the tickers array when present and well-typed
(none models a missing or non-array tickers field). -/
structure TickersPayload where
  raw : String
  tickers : Option (List String)
deriving Repr, DecidableEq

/-- The volume filter of SyncCoinsData: keep a coin when TotalVolume is
present and at least minTotalVolume. -/
def volumeEligible (minTotalVolume : Rat) (c : Coin) : Bool :=
  match c.totalVolume with
  | some v => decide (minTotalVolume ≤ v)
  | none => false

/-- The CoinDetail record SyncCoinsData builds from a coin and its
/coins/{id} payload before handing it to the detail repository. -/
def buildCoinDetail (c : Coin) (payload : CoinDataPayload) : CoinDetail :=
  { id := 0, coinID := c.id, coingeckoID := c.coingeckoID, rawJSON := payload.raw,
    genesisDate := payload.genesisDate, hashingAlgo := payload.hashingAlgo,
    categories := payload.categories, homepage := payload.homepage,
    lastUpdatedAt := payload.lastUpdatedAt, createdAt := 0, updatedAt := 0,
    deletedAt := none }

/-- Result of a SyncCoinsData run: the coingecko ids for which a
/coins/{id} detail fetch was issued, both raw-payload tables
afterwards, and the returned error (none on success). -/
structure SyncCoinsDataResult where
  detailFetched : List String
  detailsState : List CoinDetail
  tickersState : List CoinTicker
  err : Option String
deriving Repr, DecidableEq

/-- The per-coin ticker pagination loop of SyncCoinsData: fetch a page;
on fetch failure stop pagination for this coin (logged, not fatal);
otherwise persist the raw payload (an upsert failure is explicitly
discarded in the source), stop when the tickers array is missing or
empty, else advance to the next page. Fuel bounds the loop. -/
def syncTickersLoop (getCoinTickers : String → Nat → Except String TickersPayload)
    (tickerUpsertFails : CoinTicker → Bool) (now : Int) (c : Coin) :
    Nat → Nat → List CoinTicker → List CoinTicker
  | 0, _, tickersDb => tickersDb
  | fuel + 1, page, tickersDb =>
    match getCoinTickers c.coingeckoID page with
    | Except.error _ => tickersDb
    | Except.ok payload =>
      let t : CoinTicker :=
        { id := 0, coinID := c.id, page := page, rawJSON := payload.raw,
          createdAt := 0, updatedAt := 0, deletedAt := none }
      let tickersDb2 :=
        if tickerUpsertFails t then tickersDb
        else coinTickerRepository.Upsert now tickersDb t
      match payload.tickers with
      | none => tickersDb2
      | some arr =>
        if arr.length = 0 then tickersDb2
        else syncTickersLoop getCoinTickers tickerUpsertFails now c fuel (page + 1) tickersDb2

/-- The per-coin loop of SyncCoinsData over the volume-filtered coins:
fetch /coins/{id} (a failure is logged and the coin skipped), upsert
the detail record (a failure is logged, not returned), then run the
ticker pagination loop, and continue with the next coin. -/
def syncCoinsDataGo (getCoinData : String → Except String CoinDataPayload)
    (getCoinTickers : String → Nat → Except String TickersPayload)
    (detailUpsertFails : CoinDetail → Bool) (tickerUpsertFails : CoinTicker → Bool)
    (now : Int) (tickerFuel : Nat) :
    List Coin → List CoinDetail → List CoinTicker → SyncCoinsDataResult
  | [], detailsDb, tickersDb =>
    { detailFetched := [], detailsState := detailsDb, tickersState := tickersDb, err := none }
  | c :: rest, detailsDb, tickersDb =>
    match getCoinData c.coingeckoID with
    | Except.error _ =>
      let r := syncCoinsDataGo getCoinData getCoinTickers detailUpsertFails tickerUpsertFails
        now tickerFuel rest detailsDb tickersDb
      { r with detailFetched := c.coingeckoID :: r.detailFetched }
    | Except.ok payload =>
      let detail := buildCoinDetail c payload
      let detailsDb2 :=
        if detailUpsertFails detail then detailsDb
        else coinDetailRepository.Upsert now detailsDb detail
      let tickersDb2 := syncTickersLoop getCoinTickers tickerUpsertFails now c tickerFuel 1
        tickersDb
      let r := syncCoinsDataGo getCoinData getCoinTickers detailUpsertFails tickerUpsertFails
        now tickerFuel rest detailsDb2 tickersDb2
      { r with detailFetched := c.coingeckoID :: r.detailFetched }

/-- coinService.SyncCoinsData: load all coins (a failure here is wrapped
and returned), filter them by the volume threshold, then run the
per-coin detail plus ticker loop over exactly the filtered coins. -/
def coinService.SyncCoinsData (getAllCoins : Except String (List Coin))
    (getCoinData : String → Except String CoinDataPayload)
    (getCoinTickers : String → Nat → Except String TickersPayload)
    (detailUpsertFails : CoinDetail → Bool) (tickerUpsertFails : CoinTicker → Bool)
    (now : Int) (tickerFuel : Nat) (minTotalVolume : Rat)
    (detailsDb : List CoinDetail) (tickersDb : List CoinTicker) : SyncCoinsDataResult :=
  match getAllCoins with
  | Except.error e =>
    { detailFetched := [], detailsState := detailsDb, tickersState := tickersDb,
      err := some ("failed to load coins: " ++ e) }
  | Except.ok coins =>
    let filtered := coins.filter (fun c => volumeEligible minTotalVolume c)
    syncCoinsDataGo getCoinData getCoinTickers detailUpsertFails tickerUpsertFails now
      tickerFuel filtered detailsDb tickersDb

/-
Market data sync for one coin: coinService.SyncCoinMarketData.
-/

/-- Result of a SyncCoinMarketData run: the market data table
afterwards, whether the batch upsert was invoked at all, and the
returned error. -/
structure SyncMarketDataResult where
  marketState : List CoinMarketData
  upsertCalled : Bool
  err : Option String
deriving Repr, DecidableEq

/-- coinService.SyncCoinMarketData: look up the coin, read its current
market data, fetch the API tickers, read all exchanges and build the
name-to-id map; the processing loop over the fetched entries has an
empty body (a placeholder in the source), so validMarketData stays
empty and the batch upsert is guarded behind a non-empty check. -/
def coinService.SyncCoinMarketData (coinID : String)
    (getByCoingeckoID : Except String (Option Coin))
    (getByCoinID : Nat → Except String (List CoinMarketData))
    (getCoinMarketData : Except String (List CoinMarketData))
    (getAllExchanges : Except String (List Exchange))
    (fails : CoinMarketData → Bool) (marketDb : List CoinMarketData) : SyncMarketDataResult :=
  match getByCoingeckoID with
  | Except.error e =>
    { marketState := marketDb, upsertCalled := false,
      err := some ("failed to get coin: " ++ e) }
  | Except.ok none =>
    { marketState := marketDb, upsertCalled := false,
      err := some ("coin with ID " ++ coinID ++ " not found in database") }
  | Except.ok (some coin) =>
    match getByCoinID coin.id with
    | Except.error e =>
      { marketState := marketDb, upsertCalled := false,
        err := some ("failed to get current market data: " ++ e) }
    | Except.ok _ =>
      match getCoinMarketData with
      | Except.error e =>
        { marketState := marketDb, upsertCalled := false,
          err := some ("failed to fetch market data: " ++ e) }
      | Except.ok apiMarketData =>
        match getAllExchanges with
        | Except.error e =>
          { marketState := marketDb, upsertCalled := false,
            err := some ("failed to get exchanges: " ++ e) }
        | Except.ok exchanges =>
          let _exchangeMap := exchanges.map (fun e => (e.name, e.id))
          let validMarketData : List CoinMarketData :=
            apiMarketData.foldl (fun acc _ => acc) []
          if 0 < validMarketData.length then
            let out := coinMarketDataRepository.UpsertBatch fails marketDb validMarketData
            match out.err with
            | some e =>
              { marketState := out.state, upsertCalled := true,
                err := some ("failed to store market data: " ++ e) }
            | none => { marketState := out.state, upsertCalled := true, err := none }
          else
            { marketState := marketDb, upsertCalled := false, err := none }

/-
General lemmas about the embedded operations.
-/

/-- A fold whose body ignores the element keeps the accumulator (the
empty placeholder loop of SyncCoinMarketData). -/
theorem foldl_keep_acc {α β : Type} (l : List α) (b : β) :
    l.foldl (fun acc _ => acc) b = b := by
  induction l generalizing b with
  | nil => rfl
  | cons a t ih => simp [List.foldl, ih b]

/-- With no db failure, the coin transaction body succeeds and performs
the left fold of the conflict-aware upserts. -/
theorem coinUpsertTx_nofail (table l : List Coin) :
    coinUpsertTx (fun _ => false) table l =
      Except.ok (l.foldl coinsInsertOnConflict table) := by
  induction l generalizing table with
  | nil => rfl
  | cons c rest ih => simp [coinUpsertTx, ih]

/-- With no db failure, the exchange transaction body succeeds. -/
theorem exchangeUpsertTx_nofail (table l : List Exchange) :
    exchangeUpsertTx (fun _ => false) table l =
      Except.ok (l.foldl exchangesInsertOnConflict table) := by
  induction l generalizing table with
  | nil => rfl
  | cons c rest ih => simp [exchangeUpsertTx, ih]

/-- With no db failure, the category transaction body succeeds. -/
theorem categoryUpsertTx_nofail (table l : List CoinCategory) :
    categoryUpsertTx (fun _ => false) table l =
      Except.ok (l.foldl categoriesInsertOnConflict table) := by
  induction l generalizing table with
  | nil => rfl
  | cons c rest ih => simp [categoryUpsertTx, ih]

/-- If some record of the list trips the failure oracle, the coin
transaction body returns an error. -/
theorem coinUpsertTx_fails (fails : Coin → Bool) (l : List Coin) (c : Coin)
    (hmem : c ∈ l) (hf : fails c = true) :
    ∀ table, ∃ e, coinUpsertTx fails table l = Except.error e := by
  induction l with
  | nil => cases hmem
  | cons a rest ih =>
    intro table
    by_cases ha : fails a = true
    · exact ⟨"failed to upsert coin " ++ a.coingeckoID ++ ": db error",
        by simp [coinUpsertTx, ha]⟩
    · have hmem2 : c ∈ rest := by
        rcases List.mem_cons.mp hmem with h | h
        · exact absurd (h ▸ hf) ha
        · exact h
      rcases ih hmem2 (coinsInsertOnConflict table a) with ⟨e, he⟩
      exact ⟨e, by simp [coinUpsertTx, ha, he]⟩

/-- If some record of the list trips the failure oracle, the market
data transaction body returns an error. -/
theorem marketDataUpsertTx_fails (fails : CoinMarketData → Bool) (l : List CoinMarketData)
    (d : CoinMarketData) (hmem : d ∈ l) (hf : fails d = true) :
    ∀ table, ∃ e, marketDataUpsertTx fails table l = Except.error e := by
  induction l with
  | nil => cases hmem
  | cons a rest ih =>
    intro table
    by_cases ha : fails a = true
    · exact ⟨"failed to upsert market data for coin " ++ toString a.coinID ++
        " on exchange " ++ toString a.exchangeID ++ ": db error",
        by simp [marketDataUpsertTx, ha]⟩
    · have hmem2 : d ∈ rest := by
        rcases List.mem_cons.mp hmem with h | h
        · exact absurd (h ▸ hf) ha
        · exact h
      rcases ih hmem2 (marketDataInsertOnConflict table a) with ⟨e, he⟩
      exact ⟨e, by simp [marketDataUpsertTx, ha, he]⟩

/-- Without db failures the coin batch upsert never errors. -/
theorem coinUpsertBatch_nofail_err (db coins : List Coin) :
    (coinRepository.UpsertBatch (fun _ => false) db coins).err = none := by
  simp only [coinRepository.UpsertBatch]
  split
  · rfl
  · split
    · rfl
    · simp [transaction, coinUpsertTx_nofail]

/-- Without db failures, a singleton batch with a non-empty key reduces
to one conflict-aware upsert. -/
theorem coinUpsertBatch_singleton (db : List Coin) (c : Coin) (hk : c.coingeckoID ≠ "") :
    (coinRepository.UpsertBatch (fun _ => false) db [c]).state =
      coinsInsertOnConflict db c := by
  unfold coinRepository.UpsertBatch
  simp [hk, transaction, coinUpsertTx_nofail, coinUpsertTx]

/-- If the current attempt succeeds, the retry loop stops immediately
with that result, whatever retry budget remains. -/
theorem retryFetch_ok {α : Type} (attempts : Nat → Except FetchError α) (start rem : Nat)
    (v : α) (h : attempts start = Except.ok v) :
    retryFetch attempts start rem = ([start], Except.ok v) := by
  cases rem with
  | zero => simp [retryFetch, h]
  | succ r => simp [retryFetch, h]

/-- Skipping k consecutive failing attempts: the retry loop records the
k failing attempt indices, then behaves as the loop restarted after
them with the budget reduced by k. -/
theorem retryFetch_skip_failures {α : Type} (attempts : Nat → Except FetchError α) :
    ∀ (k start rem : Nat), k ≤ rem →
    (∀ i, i < k → ∃ e, attempts (start + i) = Except.error e) →
    retryFetch attempts start rem =
      (List.range' start k ++ (retryFetch attempts (start + k) (rem - k)).1,
       (retryFetch attempts (start + k) (rem - k)).2) := by
  intro k
  induction k with
  | zero => intro start rem _ _; simp
  | succ k ih =>
    intro start rem hk herr
    cases rem with
    | zero => omega
    | succ r =>
      rcases herr 0 (Nat.succ_pos k) with ⟨e, he⟩
      have he0 : attempts start = Except.error e := by simpa using he
      have herr2 : ∀ i, i < k → ∃ e, attempts (start + 1 + i) = Except.error e := by
        intro i hi
        have h3 := herr (i + 1) (by omega)
        have h4 : start + 1 + i = start + (i + 1) := by omega
        rw [h4]
        exact h3
      have hrec := ih (start + 1) r (by omega) herr2
      have hmain : retryFetch attempts start (r + 1) =
          (start :: (retryFetch attempts (start + 1) r).1,
           (retryFetch attempts (start + 1) r).2) := by
        simp [retryFetch, he0]
      have ha1 : start + 1 + k = start + (k + 1) := by omega
      have ha2 : r - k = r + 1 - (k + 1) := by omega
      rw [hmain, hrec, ha1, ha2, List.range'_succ]
      simp

/-- Consuming n successfully fetched, full-size, successfully stored
pages: the pagination loop requests pages page .. page+n-1 in order and
then behaves as the loop restarted at page page+n on the accumulated
state and running total. -/
theorem syncCoinsLoop_skip_long_pages (g : Nat → Nat → Except String (List Coin)) :
    ∀ (n fuel page : Nat) (db : List Coin) (total : Nat),
    (∀ i, i < n → ∃ cs, g (page + i) 250 = Except.ok cs ∧ 250 ≤ cs.length) →
    ∃ db2 total2,
      syncCoinsLoop g (fun _ => false) 250 (fuel + n) page db total =
        { syncCoinsLoop g (fun _ => false) 250 fuel (page + n) db2 total2 with
          requestedPages := List.range' page n ++
            (syncCoinsLoop g (fun _ => false) 250 fuel (page + n) db2 total2).requestedPages } := by
  intro n
  induction n with
  | zero => intro fuel page db total _; exact ⟨db, total, by simp⟩
  | succ k ih =>
    intro fuel page db total herr
    rcases herr 0 (Nat.succ_pos k) with ⟨cs, hg0, hlen⟩
    have hg : g page 250 = Except.ok cs := by simpa using hg0
    have herr2 : ∀ i, i < k → ∃ cs, g (page + 1 + i) 250 = Except.ok cs ∧ 250 ≤ cs.length := by
      intro i hi
      have h3 := herr (i + 1) (by omega)
      have h4 : page + 1 + i = page + (i + 1) := by omega
      rw [h4]; exact h3
    rcases ih fuel (page + 1) (coinRepository.UpsertBatch (fun _ => false) db cs).state
      (total + cs.length) herr2 with ⟨db2, total2, hrec⟩
    refine ⟨db2, total2, ?_⟩
    have hfuel : fuel + (k + 1) = (fuel + k) + 1 := by omega
    have hne : ¬ cs.length = 0 := by omega
    have hlt : ¬ cs.length < 250 := by omega
    rw [hfuel]
    simp only [syncCoinsLoop, hg, hne, hlt, coinUpsertBatch_nofail_err, if_false]
    rw [hrec]
    have h5 : page + 1 + k = page + (k + 1) := by omega
    rw [h5, List.range'_succ]
    simp

/-- When the fetched page is successfully stored but short (fewer than
250 records, zero included), the loop stops: it requests only this page
and returns success. -/
theorem syncCoinsLoop_short_page (g : Nat → Nat → Except String (List Coin))
    (fuel page : Nat) (db : List Coin) (total : Nat) (cs : List Coin)
    (hg : g page 250 = Except.ok cs) (hshort : cs.length < 250) :
    (syncCoinsLoop g (fun _ => false) 250 (fuel + 1) page db total).requestedPages = [page] ∧
    (syncCoinsLoop g (fun _ => false) 250 (fuel + 1) page db total).err = none := by
  by_cases h0 : cs.length = 0
  · constructor <;> simp [syncCoinsLoop, hg, h0]
  · constructor <;> simp [syncCoinsLoop, hg, h0, hshort, coinUpsertBatch_nofail_err]

/-- A sample coin record used to instantiate proved theorems at a
concrete input. -/
def sampleCoin : Coin :=
  { id := 0, coingeckoID := "bitcoin", symbol := "btc", name := "Bitcoin", image := none,
    currentPrice := some 50000, marketCap := none, marketCapRank := none,
    fullyDilutedValuation := none, totalVolume := some 2000000, high24h := none, low24h := none,
    priceChange24h := none, priceChangePercentage24h := none, marketCapChange24h := none,
    marketCapChangePercentage24h := none, circulatingSupply := none, totalSupply := none,
    maxSupply := none, ath := none, athChangePercentage := none, athDate := none, atl := none,
    atlChangePercentage := none, atlDate := none, lastUpdated := none, createdAt := 0,
    updatedAt := 0, deletedAt := none }

/-- C1: with every page fetch succeeding and every store succeeding,
SyncCoins requests pages 1, 2, ..., K in order, where K is the first
page returning fewer records than the requested page size 250 (zero
included), issues no request for any page after K, and succeeds. -/
theorem syncCoins_pagination_stops_at_first_short_page
    (g : Nat → Nat → Except String (List Coin)) (db : List Coin) (K fuel : Nat)
    (hK1 : 1 ≤ K) (hfuel : K ≤ fuel)
    (hlong : ∀ m, 1 ≤ m → m < K → ∃ cs, g m 250 = Except.ok cs ∧ 250 ≤ cs.length)
    (hshort : ∃ cs, g K 250 = Except.ok cs ∧ cs.length < 250) :
    (coinService.SyncCoins g (fun _ => false) db fuel).requestedPages = List.range' 1 K ∧
    (coinService.SyncCoins g (fun _ => false) db fuel).err = none := by
  rcases hshort with ⟨cs, hgK, hlen⟩
  obtain ⟨n, rfl⟩ : ∃ n, K = n + 1 := ⟨K - 1, by omega⟩
  obtain ⟨f, hf⟩ : ∃ f, fuel - n = f + 1 := ⟨fuel - n - 1, by omega⟩
  have hfuel2 : fuel = (f + 1) + n := by omega
  have hlong2 : ∀ i, i < n → ∃ cs, g (1 + i) 250 = Except.ok cs ∧ 250 ≤ cs.length := by
    intro i hi
    exact hlong (1 + i) (by omega) (by omega)
  rcases syncCoinsLoop_skip_long_pages g n (f + 1) 1 db 0 hlong2 with ⟨db2, total2, heq⟩
  have h1n : 1 + n = n + 1 := by omega
  rw [h1n] at heq
  have hfin := syncCoinsLoop_short_page g f (n + 1) db2 total2 cs hgK hlen
  unfold coinService.SyncCoins
  rw [hfuel2, heq]
  constructor
  · show List.range' 1 n ++
      (syncCoinsLoop g (fun _ => false) 250 (f + 1) (n + 1) db2 total2).requestedPages =
      List.range' 1 (n + 1)
    rw [hfin.1]
    have hcat := @List.range'_concat 1 1 n
    simp only [Nat.one_mul] at hcat
    rw [hcat, Nat.add_comm 1 n]
  · show (syncCoinsLoop g (fun _ => false) 250 (f + 1) (n + 1) db2 total2).err = none
    exact hfin.2

/-- Witness for C1: a concrete API with a full page 1 (250 records) and
an empty page 2 leads to exactly the page requests [1, 2] and success. -/
theorem syncCoins_pagination_stops_witness :
    (coinService.SyncCoins
      (fun p _ => if p = 1 then Except.ok (List.replicate 250 sampleCoin) else Except.ok [])
      (fun _ => false) [] 2).requestedPages = List.range' 1 2 ∧
    (coinService.SyncCoins
      (fun p _ => if p = 1 then Except.ok (List.replicate 250 sampleCoin) else Except.ok [])
      (fun _ => false) [] 2).err = none :=
  syncCoins_pagination_stops_at_first_short_page _ [] 2 2 (by omega) (by omega)
    (by
      intro m h1 h2
      have hm : m = 1 := by omega
      subst hm
      exact ⟨List.replicate 250 sampleCoin, rfl, by rw [List.length_replicate]⟩)
    ⟨[], rfl, by norm_num⟩

/-- When the fetch of the current page fails, the loop aborts with an
error naming the failing page. -/
theorem syncCoinsLoop_fetch_error (g : Nat → Nat → Except String (List Coin))
    (fuel page : Nat) (db : List Coin) (total : Nat) (e : String)
    (hg : g page 250 = Except.error e) :
    (syncCoinsLoop g (fun _ => false) 250 (fuel + 1) page db total).err =
      some ("failed to fetch coins page " ++ toString page ++ ": " ++ e) := by
  simp [syncCoinsLoop, hg]

/-- C2: (1) if attempts 0..k-1 of a GetCoins fetch fail (k ≤ retryCount)
and attempt k succeeds, GetCoins returns the successful result with no
error; (2) if all retryCount+1 attempts fail, GetCoins returns an error
wrapping the last attempt's error; (3) the orchestrator SyncCoins
surfaces a page fetch failure as an error identifying the failing
page. -/
theorem getCoins_retry_policy :
    (∀ (retryCount : Nat) (attempts : Nat → Except FetchError (List Coin)) (k : Nat)
       (v : List Coin), k ≤ retryCount →
       (∀ i, i < k → ∃ e, attempts i = Except.error e) → attempts k = Except.ok v →
       (CoinGeckoClient.GetCoins retryCount attempts).2 = Except.ok v) ∧
    (∀ (retryCount : Nat) (attempts : Nat → Except FetchError (List Coin))
       (errs : Nat → FetchError),
       (∀ i, i ≤ retryCount → attempts i = Except.error (errs i)) →
       (CoinGeckoClient.GetCoins retryCount attempts).2 =
         Except.error ("failed to fetch coins: " ++ (errs retryCount).message)) ∧
    (∀ (g : Nat → Nat → Except String (List Coin)) (db : List Coin) (p fuel : Nat)
       (e : String), 1 ≤ p → p ≤ fuel →
       (∀ m, 1 ≤ m → m < p → ∃ cs, g m 250 = Except.ok cs ∧ 250 ≤ cs.length) →
       g p 250 = Except.error e →
       (coinService.SyncCoins g (fun _ => false) db fuel).err =
         some ("failed to fetch coins page " ++ toString p ++ ": " ++ e)) := by
  refine ⟨?_, ?_, ?_⟩
  · intro rc attempts k v hk herr hok
    have herr0 : ∀ i, i < k → ∃ e, attempts (0 + i) = Except.error e := by
      intro i hi; rw [Nat.zero_add]; exact herr i hi
    have hskip := retryFetch_skip_failures attempts k 0 rc hk herr0
    rw [Nat.zero_add] at hskip
    rw [retryFetch_ok attempts k (rc - k) v hok] at hskip
    unfold CoinGeckoClient.GetCoins
    rw [hskip]
  · intro rc attempts errs hall
    have herr0 : ∀ i, i < rc → ∃ e, attempts (0 + i) = Except.error e := by
      intro i hi; rw [Nat.zero_add]; exact ⟨errs i, hall i (Nat.le_of_lt hi)⟩
    have hskip := retryFetch_skip_failures attempts rc 0 rc (Nat.le_refl rc) herr0
    rw [Nat.zero_add, Nat.sub_self] at hskip
    have hlast : retryFetch attempts rc 0 = ([rc], Except.error (errs rc)) := by
      simp [retryFetch, hall rc (Nat.le_refl rc)]
    rw [hlast] at hskip
    unfold CoinGeckoClient.GetCoins
    rw [hskip]
  · intro g db p fuel e hp1 hpf hlong hge
    obtain ⟨n, rfl⟩ : ∃ n, p = n + 1 := ⟨p - 1, by omega⟩
    obtain ⟨f, hf⟩ : ∃ f, fuel - n = f + 1 := ⟨fuel - n - 1, by omega⟩
    have hfuel2 : fuel = (f + 1) + n := by omega
    have hlong2 : ∀ i, i < n → ∃ cs, g (1 + i) 250 = Except.ok cs ∧ 250 ≤ cs.length := by
      intro i hi
      exact hlong (1 + i) (by omega) (by omega)
    rcases syncCoinsLoop_skip_long_pages g n (f + 1) 1 db 0 hlong2 with ⟨db2, total2, heq⟩
    have h1n : 1 + n = n + 1 := by omega
    rw [h1n] at heq
    unfold coinService.SyncCoins
    rw [hfuel2, heq]
    show (syncCoinsLoop g (fun _ => false) 250 (f + 1) (n + 1) db2 total2).err =
      some ("failed to fetch coins page " ++ toString (n + 1) ++ ": " ++ e)
    exact syncCoinsLoop_fetch_error g f (n + 1) db2 total2 e hge

/-- Witness for C2: concrete instances of all three parts: a transport
failure then success yields the result; two straight failures surface
the wrapped last error; a page 1 fetch failure aborts the sync naming
page 1. -/
theorem getCoins_retry_policy_witness :
    (CoinGeckoClient.GetCoins 2
      (fun i => if i = 0 then Except.error (FetchError.transport "dial tcp: timeout")
                else Except.ok [sampleCoin])).2 = Except.ok [sampleCoin] ∧
    (CoinGeckoClient.GetCoins 1
      (fun _ => Except.error (FetchError.httpStatus 500 "oops"))).2 =
      Except.error ("failed to fetch coins: " ++
        (FetchError.httpStatus 500 "oops").message) ∧
    (coinService.SyncCoins (fun p _ => if p = 1 then Except.error "boom" else Except.ok [])
      (fun _ => false) [] 1).err =
      some ("failed to fetch coins page " ++ toString (1 : Nat) ++ ": " ++ "boom") :=
  ⟨getCoins_retry_policy.1 2 _ 1 [sampleCoin] (by omega)
      (by
        intro i hi
        have hi0 : i = 0 := by omega
        subst hi0
        exact ⟨FetchError.transport "dial tcp: timeout", rfl⟩)
      rfl,
   getCoins_retry_policy.2.1 1 _ (fun _ => FetchError.httpStatus 500 "oops")
      (by intro i _; rfl),
   getCoins_retry_policy.2.2 _ [] 1 1 "boom" (by omega) (by omega)
      (by intro m h1 h2; omega) rfl⟩

/-- C10: when the coin lookup finds the coin and the current-market-data
read, the API market-data fetch and the exchange read all succeed,
SyncCoinMarketData leaves the market data table unchanged, never
invokes the batch upsert, and returns success: the ticker-to-exchange
mapping loop body is empty, so the valid-record list is always empty,
however many tickers the API returned. -/
theorem syncCoinMarketData_stores_nothing (coinID : String) (coin : Coin)
    (getByCoingeckoID : Except String (Option Coin))
    (getByCoinID : Nat → Except String (List CoinMarketData))
    (getCoinMarketData : Except String (List CoinMarketData))
    (getAllExchanges : Except String (List Exchange)) (fails : CoinMarketData → Bool)
    (marketDb current api : List CoinMarketData) (exchanges : List Exchange)
    (h1 : getByCoingeckoID = Except.ok (some coin))
    (h2 : getByCoinID coin.id = Except.ok current)
    (h3 : getCoinMarketData = Except.ok api)
    (h4 : getAllExchanges = Except.ok exchanges) :
    coinService.SyncCoinMarketData coinID getByCoingeckoID getByCoinID getCoinMarketData
      getAllExchanges fails marketDb =
      { marketState := marketDb, upsertCalled := false, err := none } := by
  subst h1 h3 h4
  unfold coinService.SyncCoinMarketData
  simp [h2, foldl_keep_acc]

/-- Witness for C10: a concrete run with every read succeeding stores
nothing, calls no upsert and returns success. -/
theorem syncCoinMarketData_stores_nothing_witness :
    coinService.SyncCoinMarketData "bitcoin" (Except.ok (some sampleCoin))
      (fun _ => Except.ok []) (Except.ok []) (Except.ok []) (fun _ => false) [] =
      { marketState := [], upsertCalled := false, err := none } :=
  syncCoinMarketData_stores_nothing "bitcoin" sampleCoin _ _ _ _ _ [] [] [] []
    rfl rfl rfl rfl

/-- A fetch-attempt oracle whose first attempt fails with a JSON
deserialization error and whose second attempt succeeds. -/
def unmarshalThenOk : Nat → Except FetchError (List Coin) :=
  fun i =>
    if i = 0 then Except.error (FetchError.unmarshal "unexpected end of JSON input")
    else Except.ok [sampleCoin]

/-- Counterexample to C5: with retryCount = 1, a deserialization error
on attempt 0 is retried: attempt 1 is performed (the trace is [0, 1],
not [0]) and its success is returned, so the unmarshal error is neither
surfaced immediately nor does it end the attempts. -/
theorem getCoins_deserialization_retried_counterexample :
    CoinGeckoClient.GetCoins 1 unmarshalThenOk = ([0, 1], Except.ok [sampleCoin]) := by
  rfl

/-- The retry trace always starts with the first attempt index. -/
theorem retryFetch_trace_head {α : Type} (a : Nat → Except FetchError α) (s rem : Nat) :
    ∃ t, (retryFetch a s rem).1 = s :: t := by
  cases rem with
  | zero => exact ⟨[], rfl⟩
  | succ r =>
    cases h : a s with
    | ok v => exact ⟨[], by simp [retryFetch, h]⟩
    | error e => exact ⟨(retryFetch a (s + 1) r).1, by simp [retryFetch, h]⟩

/-- The attempts GetCoins performs are exactly those of the retry
loop, whatever the final outcome. -/
theorem getCoins_trace (rc : Nat) (a : Nat → Except FetchError (List Coin)) :
    (CoinGeckoClient.GetCoins rc a).1 = (retryFetch a 0 rc).1 := by
  unfold CoinGeckoClient.GetCoins
  cases h : (retryFetch a 0 rc).2 <;> simp [h]

/-- C5 amended: the retry loop does not treat deserialization errors
specially: a JSON unmarshal failure at attempt k < retryCount (with
attempts before k failing) is followed by attempt k+1 like any other
error class, and when every attempt fails with an unmarshal error the
last one is wrapped and surfaced after exhausting all retries. -/
theorem getCoins_deserialization_retried :
    (∀ (retryCount : Nat) (attempts : Nat → Except FetchError (List Coin)) (k : Nat)
       (m : String), k < retryCount →
       (∀ i, i < k → ∃ e, attempts i = Except.error e) →
       attempts k = Except.error (FetchError.unmarshal m) →
       (k + 1) ∈ (CoinGeckoClient.GetCoins retryCount attempts).1) ∧
    (∀ (retryCount : Nat) (attempts : Nat → Except FetchError (List Coin))
       (m : Nat → String),
       (∀ i, i ≤ retryCount → attempts i = Except.error (FetchError.unmarshal (m i))) →
       (CoinGeckoClient.GetCoins retryCount attempts).2 =
         Except.error ("failed to fetch coins: " ++
           (FetchError.unmarshal (m retryCount)).message)) := by
  constructor
  · intro rc a k m hk herr hunm
    have herr0 : ∀ i, i < k + 1 → ∃ e, a (0 + i) = Except.error e := by
      intro i hi
      rw [Nat.zero_add]
      by_cases hik : i < k
      · exact herr i hik
      · have hike : i = k := by omega
        subst hike
        exact ⟨FetchError.unmarshal m, hunm⟩
    have hskip := retryFetch_skip_failures a (k + 1) 0 rc (by omega) herr0
    rw [Nat.zero_add] at hskip
    rcases retryFetch_trace_head a (k + 1) (rc - (k + 1)) with ⟨t, ht⟩
    rw [getCoins_trace, hskip]
    show (k + 1) ∈ List.range' 0 (k + 1) ++ (retryFetch a (k + 1) (rc - (k + 1))).1
    rw [ht]
    exact List.mem_append_right _ (List.mem_cons_self _ _)
  · intro rc a m hall
    have herr0 : ∀ i, i < rc → ∃ e, a (0 + i) = Except.error e := by
      intro i hi
      rw [Nat.zero_add]
      exact ⟨FetchError.unmarshal (m i), hall i (Nat.le_of_lt hi)⟩
    have hskip := retryFetch_skip_failures a rc 0 rc (Nat.le_refl rc) herr0
    rw [Nat.zero_add, Nat.sub_self] at hskip
    have hlast : retryFetch a rc 0 =
        ([rc], Except.error (FetchError.unmarshal (m rc))) := by
      simp [retryFetch, hall rc (Nat.le_refl rc)]
    rw [hlast] at hskip
    unfold CoinGeckoClient.GetCoins
    rw [hskip]

/-- Witness for the amended C5: concretely, after an unmarshal failure
on attempt 0 with retryCount 1, attempt 1 is in the performed trace;
and with retryCount 0 a straight unmarshal failure is wrapped and
surfaced. -/
theorem getCoins_deserialization_retried_witness :
    (0 + 1) ∈ (CoinGeckoClient.GetCoins 1 unmarshalThenOk).1 ∧
    (CoinGeckoClient.GetCoins 0
      (fun _ => Except.error (FetchError.unmarshal "bad json"))).2 =
      Except.error ("failed to fetch coins: " ++
        (FetchError.unmarshal "bad json").message) :=
  ⟨getCoins_deserialization_retried.1 1 unmarshalThenOk 0 "unexpected end of JSON input"
      (by omega) (by intro i hi; omega) rfl,
   getCoins_deserialization_retried.2 0 _ (fun _ => "bad json") (by intro i _; rfl)⟩

/-- Without db failures the exchange batch upsert never errors. -/
theorem exchangeUpsertBatch_nofail_err (db exchanges : List Exchange) :
    (exchangeRepository.UpsertBatch (fun _ => false) db exchanges).err = none := by
  simp only [exchangeRepository.UpsertBatch]
  split
  · rfl
  · split
    · rfl
    · simp [transaction, exchangeUpsertTx_nofail]

/-- Without db failures the category batch upsert never errors. -/
theorem categoryUpsertBatch_nofail_err (db categories : List CoinCategory) :
    (coinCategoryRepository.UpsertBatch (fun _ => false) db categories).err = none := by
  simp only [coinCategoryRepository.UpsertBatch]
  split
  · rfl
  · split
    · rfl
    · simp [transaction, categoryUpsertTx_nofail]

/-- An asset platform with an empty natural key, as it can arrive from
the upstream API. -/
def emptyKeyPlatform : AssetPlatform :=
  { id := "", chainIdentifier := none, name := "Anonymous Platform", shortName := none,
    nativeCoinID := none, createdAt := 0, updatedAt := 0, deletedAt := none }

/-- A coin record with an empty natural key. -/
def emptyKeyCoin : Coin :=
  { sampleCoin with coingeckoID := "", symbol := "anon", name := "Anonymous Coin" }

/-- Counterexample to C3: the asset-platform batch upsert does not
exclude a record with an empty natural key: upserting a batch holding
only an empty-id platform stores that record, while the claim requires
it to be excluded (the stored state to remain empty). -/
theorem assetPlatform_empty_key_stored_counterexample :
    (assetPlatformRepository.UpsertBatch (fun _ => false) [] [emptyKeyPlatform]).state =
      [emptyKeyPlatform] ∧ emptyKeyPlatform.id = "" :=
  ⟨rfl, rfl⟩

/-- C3 amended: the coin, exchange and coin-category batch upserts
exclude records with an empty natural key (the batch behaves exactly as
on the pre-filtered list) and upsert the remaining records successfully;
the asset-platform batch upsert, however, applies no empty-key filter
and saves every record of the batch, including one whose ID is empty. -/
theorem upsertBatch_empty_key_filtering :
    (∀ (fails : Coin → Bool) (db coins : List Coin),
       coinRepository.UpsertBatch fails db coins =
         coinRepository.UpsertBatch fails db
           (coins.filter (fun c => c.coingeckoID ≠ ""))) ∧
    (∀ (db coins : List Coin),
       (coinRepository.UpsertBatch (fun _ => false) db coins).err = none) ∧
    (∀ (fails : Exchange → Bool) (db exchanges : List Exchange),
       exchangeRepository.UpsertBatch fails db exchanges =
         exchangeRepository.UpsertBatch fails db
           (exchanges.filter (fun e => e.coingeckoID ≠ ""))) ∧
    (∀ (db exchanges : List Exchange),
       (exchangeRepository.UpsertBatch (fun _ => false) db exchanges).err = none) ∧
    (∀ (fails : CoinCategory → Bool) (db categories : List CoinCategory),
       coinCategoryRepository.UpsertBatch fails db categories =
         coinCategoryRepository.UpsertBatch fails db
           (categories.filter (fun c => c.coingeckoID ≠ ""))) ∧
    (∀ (db categories : List CoinCategory),
       (coinCategoryRepository.UpsertBatch (fun _ => false) db categories).err = none) ∧
    (∀ (db : List AssetPlatform) (p : AssetPlatform), p.id = "" →
       (assetPlatformRepository.UpsertBatch (fun _ => false) db [p]).state = db ++ [p]) := by
  refine ⟨?_, coinUpsertBatch_nofail_err, ?_, exchangeUpsertBatch_nofail_err, ?_,
    categoryUpsertBatch_nofail_err, ?_⟩
  · intro fails db coins
    unfold coinRepository.UpsertBatch
    by_cases h0 : coins.length = 0
    · have hnil : coins = [] := List.length_eq_zero.mp h0
      subst hnil
      simp
    · simp only [h0, if_false, List.filter_filter, Bool.and_self]
      by_cases hc : ∀ a ∈ coins, a.coingeckoID = ""
      · simp [eq_true hc]
      · simp [eq_false hc]
  · intro fails db exchanges
    unfold exchangeRepository.UpsertBatch
    by_cases h0 : exchanges.length = 0
    · have hnil : exchanges = [] := List.length_eq_zero.mp h0
      subst hnil
      simp
    · simp only [h0, if_false, List.filter_filter, Bool.and_self]
      by_cases hc : ∀ a ∈ exchanges, a.coingeckoID = ""
      · simp [eq_true hc]
      · simp [eq_false hc]
  · intro fails db categories
    unfold coinCategoryRepository.UpsertBatch
    by_cases h0 : categories.length = 0
    · have hnil : categories = [] := List.length_eq_zero.mp h0
      subst hnil
      simp
    · simp only [h0, if_false, List.filter_filter, Bool.and_self]
      by_cases hc : ∀ a ∈ categories, a.coingeckoID = ""
      · simp [eq_true hc]
      · simp [eq_false hc]
  · intro db p hp
    unfold assetPlatformRepository.UpsertBatch
    simp [transaction, assetPlatformUpsertTx, assetPlatformSave, hp]

/-- Witness for the amended C3: concrete instances: an all-empty-key
coin batch equals its filtered (empty) batch; a valid coin batch
succeeds; the asset-platform batch stores the empty-key platform. -/
theorem upsertBatch_empty_key_filtering_witness :
    coinRepository.UpsertBatch (fun _ => false) [] [emptyKeyCoin] =
      coinRepository.UpsertBatch (fun _ => false) []
        ([emptyKeyCoin].filter (fun c => c.coingeckoID ≠ "")) ∧
    (coinRepository.UpsertBatch (fun _ => false) [] [sampleCoin]).err = none ∧
    (assetPlatformRepository.UpsertBatch (fun _ => false) [] [emptyKeyPlatform]).state =
      [] ++ [emptyKeyPlatform] :=
  ⟨upsertBatch_empty_key_filtering.1 (fun _ => false) [] [emptyKeyCoin],
   upsertBatch_empty_key_filtering.2.1 [] [sampleCoin],
   upsertBatch_empty_key_filtering.2.2.2.2.2.2 [] emptyKeyPlatform rfl⟩

/-- A valid market data record for concrete instantiations. -/
def sampleMarketData : CoinMarketData :=
  { id := 0, coinID := 1, exchangeID := 1, price := some 100, volume24h := none,
    volumePercentage := none, lastUpdated := none, createdAt := 0, updatedAt := 0,
    deletedAt := none }

/-- C4: for both the coin and the market-data batch upserts, if the
per-record upsert of any single valid record of the batch fails, the
call returns an error and the stored state is unchanged from before
the call: the whole transaction is rolled back and no record of the
batch is committed. -/
theorem upsertBatch_atomic_on_failure :
    (∀ (fails : Coin → Bool) (db coins : List Coin) (c : Coin),
       c ∈ coins → c.coingeckoID ≠ "" → fails c = true →
       (coinRepository.UpsertBatch fails db coins).state = db ∧
       (coinRepository.UpsertBatch fails db coins).err.isSome = true) ∧
    (∀ (fails : CoinMarketData → Bool) (db marketData : List CoinMarketData)
       (d : CoinMarketData),
       d ∈ marketData → marketDataValid d = true → fails d = true →
       (coinMarketDataRepository.UpsertBatch fails db marketData).state = db ∧
       (coinMarketDataRepository.UpsertBatch fails db marketData).err.isSome = true) := by
  constructor
  · intro fails db coins c hmem hkey hf
    have hmemf : c ∈ coins.filter (fun c => c.coingeckoID ≠ "") :=
      List.mem_filter.mpr ⟨hmem, by simp [hkey]⟩
    rcases coinUpsertTx_fails fails _ c hmemf hf db with ⟨e, he⟩
    have h0 : ¬ coins.length = 0 := by
      intro h
      rw [List.length_eq_zero.mp h] at hmem
      cases hmem
    have h1 : ¬ (coins.filter (fun c => c.coingeckoID ≠ "")).length = 0 := by
      intro h
      rw [List.length_eq_zero.mp h] at hmemf
      cases hmemf
    unfold coinRepository.UpsertBatch
    simp only [h0, h1, if_false, transaction, he]
    simp
  · intro fails db marketData d hmem hvalid hf
    have hmemf : d ∈ marketData.filter (fun d => marketDataValid d) :=
      List.mem_filter.mpr ⟨hmem, hvalid⟩
    rcases marketDataUpsertTx_fails fails _ d hmemf hf db with ⟨e, he⟩
    have h0 : ¬ marketData.length = 0 := by
      intro h
      rw [List.length_eq_zero.mp h] at hmem
      cases hmem
    have h1 : ¬ (marketData.filter (fun d => marketDataValid d)).length = 0 := by
      intro h
      rw [List.length_eq_zero.mp h] at hmemf
      cases hmemf
    unfold coinMarketDataRepository.UpsertBatch
    simp only [h0, h1, if_false, transaction, he]
    simp

/-- Witness for C4: a concrete failing record in a singleton batch
leaves the store unchanged and produces an error, for both repos. -/
theorem upsertBatch_atomic_on_failure_witness :
    ((coinRepository.UpsertBatch (fun _ => true) [] [sampleCoin]).state = [] ∧
     (coinRepository.UpsertBatch (fun _ => true) [] [sampleCoin]).err.isSome = true) ∧
    ((coinMarketDataRepository.UpsertBatch (fun _ => true) [] [sampleMarketData]).state = [] ∧
     (coinMarketDataRepository.UpsertBatch (fun _ => true) [] [sampleMarketData]).err.isSome
       = true) :=
  ⟨upsertBatch_atomic_on_failure.1 (fun _ => true) [] [sampleCoin] sampleCoin
      (List.mem_singleton.mpr rfl) (by decide) rfl,
   upsertBatch_atomic_on_failure.2 (fun _ => true) [] [sampleMarketData] sampleMarketData
      (List.mem_singleton.mpr rfl) (by decide) rfl⟩

/-- The projection of a coin row onto the columns the ON CONFLICT
update overwrites (everything except the surrogate id and created_at,
which are not in the SET list). -/
def coinMutable (c : Coin) : Coin := { c with id := 0, createdAt := 0 }

/-- The per-row conflict update (applied or not) never changes the key
column. -/
theorem conflictUpdate_if_key (r c : Coin) :
    (if r.coingeckoID = c.coingeckoID then coinConflictUpdate r c else r).coingeckoID =
      r.coingeckoID := by
  by_cases h : r.coingeckoID = c.coingeckoID <;> simp [h, coinConflictUpdate]

/-- The conflict-update map leaves the key column of every row in
place. -/
theorem conflictMap_keys (t : List Coin) (c : Coin) :
    ((t.map (fun r => if r.coingeckoID = c.coingeckoID then coinConflictUpdate r c else r)).map
      Coin.coingeckoID) = t.map Coin.coingeckoID := by
  induction t with
  | nil => rfl
  | cons r t ih => simp only [List.map_cons, conflictUpdate_if_key, ih]

/-- Filtering by the incoming key commutes with the conflict-update
map (the map preserves every row's key). -/
theorem conflictMap_filter (t : List Coin) (c : Coin) :
    ((t.map (fun r => if r.coingeckoID = c.coingeckoID then coinConflictUpdate r c else r)).filter
      (fun r => r.coingeckoID = c.coingeckoID)) =
    (t.filter (fun r => r.coingeckoID = c.coingeckoID)).map
      (fun r => if r.coingeckoID = c.coingeckoID then coinConflictUpdate r c else r) := by
  induction t with
  | nil => rfl
  | cons r t ih =>
    simp only [List.map_cons, List.filter_cons, conflictUpdate_if_key]
    by_cases h : r.coingeckoID = c.coingeckoID
    · simp [h, ih]
    · simp [h, ih]

/-- Over a table with pairwise distinct keys, the rows matching a key k
number at most one, and exactly one when a match exists. -/
theorem nodup_key_filter_len (t : List Coin) (k : String)
    (h : (t.map Coin.coingeckoID).Nodup) :
    (t.filter (fun r => r.coingeckoID = k)).length ≤ 1 ∧
    (t.any (fun r => r.coingeckoID = k) = true →
      (t.filter (fun r => r.coingeckoID = k)).length = 1) := by
  induction t with
  | nil => simp
  | cons r t ih =>
    rw [List.map_cons, List.nodup_cons] at h
    obtain ⟨hnotin, hnd⟩ := h
    obtain ⟨ih1, ih2⟩ := ih hnd
    by_cases hr : r.coingeckoID = k
    · have hnone : t.filter (fun r => r.coingeckoID = k) = [] := by
        rw [List.filter_eq_nil_iff]
        intro a ha hak
        apply hnotin
        have hak2 : a.coingeckoID = k := by simpa using hak
        have hra : r.coingeckoID = a.coingeckoID := by rw [hr, hak2]
        rw [hra]
        exact List.mem_map.mpr ⟨a, ha, rfl⟩
      constructor
      · simp [hr, hnone]
      · intro _
        simp [hr, hnone]
    · constructor
      · simp [hr, ih1]
      · intro hany
        have hany2 : t.any (fun r => r.coingeckoID = k) = true := by
          rcases List.any_eq_true.mp hany with ⟨a, ha, hak⟩
          rcases List.mem_cons.mp ha with rfl | ha2
          · exact absurd (by simpa using hak) hr
          · exact List.any_eq_true.mpr ⟨a, ha2, hak⟩
        simp [hr, ih2 hany2]

/-- After one conflict-aware upsert of a record into a table with
pairwise distinct keys, exactly one row carries the record's key. -/
theorem coinsInsertOnConflict_one_row (t : List Coin) (c : Coin)
    (hnd : (t.map Coin.coingeckoID).Nodup) :
    ((coinsInsertOnConflict t c).filter
      (fun r => r.coingeckoID = c.coingeckoID)).length = 1 := by
  unfold coinsInsertOnConflict
  by_cases hany : t.any (fun r => r.coingeckoID = c.coingeckoID) = true
  · rw [if_pos hany, conflictMap_filter, List.length_map]
    exact (nodup_key_filter_len t c.coingeckoID hnd).2 hany
  · have hnomatch : ∀ a ∈ t, ¬ a.coingeckoID = c.coingeckoID := by
      intro a ha hak
      exact hany (List.any_eq_true.mpr ⟨a, ha, by simpa using hak⟩)
    rw [if_neg hany, List.filter_append]
    have hnone : t.filter (fun r => r.coingeckoID = c.coingeckoID) = [] := by
      rw [List.filter_eq_nil_iff]
      intro a ha hak
      exact hnomatch a ha (by simpa using hak)
    simp [hnone]

/-- After a conflict-aware upsert of c, every row carrying c's key has
all mutable columns equal to c's. -/
theorem coinsInsertOnConflict_latest (t : List Coin) (c : Coin) (r : Coin)
    (hr : r ∈ coinsInsertOnConflict t c) (hk : r.coingeckoID = c.coingeckoID) :
    coinMutable r = coinMutable c := by
  unfold coinsInsertOnConflict at hr
  by_cases hany : t.any (fun r => r.coingeckoID = c.coingeckoID) = true
  · rw [if_pos hany] at hr
    rcases List.mem_map.mp hr with ⟨r0, hr0mem, hr0eq⟩
    by_cases h0 : r0.coingeckoID = c.coingeckoID
    · rw [if_pos h0] at hr0eq
      rw [← hr0eq]
      simp [coinConflictUpdate, coinMutable, h0]
    · rw [if_neg h0] at hr0eq
      rw [← hr0eq] at hk
      exact absurd hk h0
  · have hnomatch : ∀ a ∈ t, ¬ a.coingeckoID = c.coingeckoID := by
      intro a ha hak
      exact hany (List.any_eq_true.mpr ⟨a, ha, by simpa using hak⟩)
    rw [if_neg hany] at hr
    rcases List.mem_append.mp hr with hmem | hmem
    · exact absurd hk (hnomatch r hmem)
    · have hreq : r = { c with id := nextId Coin.id t } := by simpa using hmem
      rw [hreq]
      simp [coinMutable]

/-- A conflict-aware upsert preserves pairwise distinctness of the
keys (natural-key uniqueness). -/
theorem coinsInsertOnConflict_nodup (t : List Coin) (c : Coin)
    (hnd : (t.map Coin.coingeckoID).Nodup) :
    ((coinsInsertOnConflict t c).map Coin.coingeckoID).Nodup := by
  unfold coinsInsertOnConflict
  by_cases hany : t.any (fun r => r.coingeckoID = c.coingeckoID) = true
  · rw [if_pos hany, conflictMap_keys]
    exact hnd
  · have hnomatch : ∀ a ∈ t, ¬ a.coingeckoID = c.coingeckoID := by
      intro a ha hak
      exact hany (List.any_eq_true.mpr ⟨a, ha, by simpa using hak⟩)
    rw [if_neg hany, List.map_append]
    have hkey : List.map Coin.coingeckoID [({ c with id := nextId Coin.id t } : Coin)] =
        [c.coingeckoID] := rfl
    rw [hkey, List.nodup_append]
    refine ⟨hnd, by simp, ?_⟩
    intro a ha
    simp only [List.mem_singleton]
    intro hac
    rcases List.mem_map.mp ha with ⟨r0, hr0, hr0eq⟩
    apply hnomatch r0 hr0
    rw [hr0eq, hac]

/-- C6: upserting the same non-empty natural key twice (via the coin
batch upsert, first with one record, then with a different one) into a
table with pairwise distinct keys leaves exactly one stored row for
that key; that row carries all the mutable column values of the second
record, its update timestamp is the second record's; and key
distinctness (natural-key uniqueness) is preserved. -/
theorem coin_upsert_twice_latest_wins (db : List Coin) (rec1 rec2 : Coin) (k : String)
    (hk : k ≠ "") (h1 : rec1.coingeckoID = k) (h2 : rec2.coingeckoID = k)
    (hnd : (db.map Coin.coingeckoID).Nodup) :
    (((coinRepository.UpsertBatch (fun _ => false)
        (coinRepository.UpsertBatch (fun _ => false) db [rec1]).state [rec2]).state.filter
      (fun r => r.coingeckoID = k)).length = 1) ∧
    (∀ r ∈ (coinRepository.UpsertBatch (fun _ => false)
        (coinRepository.UpsertBatch (fun _ => false) db [rec1]).state [rec2]).state,
      r.coingeckoID = k →
      coinMutable r = coinMutable rec2 ∧ r.updatedAt = rec2.updatedAt) ∧
    ((coinRepository.UpsertBatch (fun _ => false)
        (coinRepository.UpsertBatch (fun _ => false) db [rec1]).state [rec2]).state.map
      Coin.coingeckoID).Nodup := by
  have hk1 : rec1.coingeckoID ≠ "" := by rw [h1]; exact hk
  have hk2 : rec2.coingeckoID ≠ "" := by rw [h2]; exact hk
  rw [coinUpsertBatch_singleton db rec1 hk1]
  rw [coinUpsertBatch_singleton (coinsInsertOnConflict db rec1) rec2 hk2]
  have hnd1 := coinsInsertOnConflict_nodup db rec1 hnd
  refine ⟨?_, ?_, coinsInsertOnConflict_nodup (coinsInsertOnConflict db rec1) rec2 hnd1⟩
  · have hcount := coinsInsertOnConflict_one_row (coinsInsertOnConflict db rec1) rec2 hnd1
    rw [h2] at hcount
    exact hcount
  · intro r hr hrk
    have hmut := coinsInsertOnConflict_latest (coinsInsertOnConflict db rec1) rec2 r hr
      (by rw [hrk, h2])
    refine ⟨hmut, ?_⟩
    have hupd := congrArg Coin.updatedAt hmut
    simpa [coinMutable] using hupd

/-- A second coin record for the same natural key with different
mutable values and a later update timestamp. -/
def sampleCoinV2 : Coin :=
  { sampleCoin with
    name := "Bitcoin Updated"
    currentPrice := some 60000
    totalVolume := some 3000000
    updatedAt := 5 }

/-- Witness for C6: concretely upserting the key "bitcoin" twice into
an empty table yields one row for the key, reflecting the second
record's values and timestamp, with keys still distinct. -/
theorem coin_upsert_twice_latest_wins_witness :
    (((coinRepository.UpsertBatch (fun _ => false)
        (coinRepository.UpsertBatch (fun _ => false) [] [sampleCoin]).state
        [sampleCoinV2]).state.filter
      (fun r => r.coingeckoID = "bitcoin")).length = 1) ∧
    (∀ r ∈ (coinRepository.UpsertBatch (fun _ => false)
        (coinRepository.UpsertBatch (fun _ => false) [] [sampleCoin]).state
        [sampleCoinV2]).state,
      r.coingeckoID = "bitcoin" →
      coinMutable r = coinMutable sampleCoinV2 ∧ r.updatedAt = sampleCoinV2.updatedAt) ∧
    ((coinRepository.UpsertBatch (fun _ => false)
        (coinRepository.UpsertBatch (fun _ => false) [] [sampleCoin]).state
        [sampleCoinV2]).state.map Coin.coingeckoID).Nodup :=
  coin_upsert_twice_latest_wins [] sampleCoin sampleCoinV2 "bitcoin"
    (by decide) rfl rfl (by simp)

/-- The per-coin loop issues exactly one /coins/{id} detail fetch per
coin handed to it, in order, regardless of any failures. -/
theorem syncCoinsDataGo_trace (gcd : String → Except String CoinDataPayload)
    (gct : String → Nat → Except String TickersPayload) (duf : CoinDetail → Bool)
    (tuf : CoinTicker → Bool) (now : Int) (fuel : Nat) :
    ∀ (l : List Coin) (ddb : List CoinDetail) (tdb : List CoinTicker),
    (syncCoinsDataGo gcd gct duf tuf now fuel l ddb tdb).detailFetched =
      l.map Coin.coingeckoID := by
  intro l
  induction l with
  | nil => intro ddb tdb; rfl
  | cons c rest ih =>
    intro ddb tdb
    unfold syncCoinsDataGo
    cases h : gcd c.coingeckoID with
    | error e => simp [h, ih]
    | ok payload => simp [h, ih]

/-- The per-coin loop never returns an error, whatever the oracles
do. -/
theorem syncCoinsDataGo_err (gcd : String → Except String CoinDataPayload)
    (gct : String → Nat → Except String TickersPayload) (duf : CoinDetail → Bool)
    (tuf : CoinTicker → Bool) (now : Int) (fuel : Nat) :
    ∀ (l : List Coin) (ddb : List CoinDetail) (tdb : List CoinTicker),
    (syncCoinsDataGo gcd gct duf tuf now fuel l ddb tdb).err = none := by
  intro l
  induction l with
  | nil => intro ddb tdb; rfl
  | cons c rest ih =>
    intro ddb tdb
    unfold syncCoinsDataGo
    cases h : gcd c.coingeckoID with
    | error e => simp [h, ih]
    | ok payload => simp [h, ih]

/-- When every detail fetch fails, every coin is skipped: both stores
are left untouched. -/
theorem syncCoinsDataGo_skip_all (gcd : String → Except String CoinDataPayload)
    (gct : String → Nat → Except String TickersPayload) (duf : CoinDetail → Bool)
    (tuf : CoinTicker → Bool) (now : Int) (fuel : Nat)
    (hfail : ∀ s, ∃ e, gcd s = Except.error e) :
    ∀ (l : List Coin) (ddb : List CoinDetail) (tdb : List CoinTicker),
    (syncCoinsDataGo gcd gct duf tuf now fuel l ddb tdb).detailsState = ddb ∧
    (syncCoinsDataGo gcd gct duf tuf now fuel l ddb tdb).tickersState = tdb := by
  intro l
  induction l with
  | nil => intro ddb tdb; exact ⟨rfl, rfl⟩
  | cons c rest ih =>
    intro ddb tdb
    rcases hfail c.coingeckoID with ⟨e, he⟩
    unfold syncCoinsDataGo
    constructor
    · simp [he, (ih ddb tdb).1]
    · simp [he, (ih ddb tdb).2]

/-- A coin whose trading volume equals the threshold exactly. -/
def thresholdCoin : Coin :=
  { sampleCoin with
    coingeckoID := "stablecoin"
    totalVolume := some 1000000 }

/-- Counterexample to C7: with threshold 1,000,000 and one coin whose
TotalVolume equals 1,000,000 exactly, the detail fetch loop runs for
that coin although no coin strictly exceeds the threshold: the filter
uses greater-or-equal, not strictly-greater. -/
theorem syncCoinsData_threshold_counterexample :
    (coinService.SyncCoinsData (Except.ok [thresholdCoin]) (fun _ => Except.error "net down")
      (fun _ _ => Except.error "net down") (fun _ => false) (fun _ => false) 0 1 1000000
      [] []).detailFetched = ["stablecoin"] ∧
    [thresholdCoin].filter
      (fun c => match c.totalVolume with
        | some v => decide ((1000000 : Rat) < v)
        | none => false) = [] := by
  constructor
  · rfl
  · rfl

/-- C7 amended: the detail/ticker fetch loop of SyncCoinsData runs
exactly for the coins whose TotalVolume is present and at least (>=)
the configured threshold, and for no other coin; eligibility holds
precisely when the volume field is non-nil and >= the threshold. -/
theorem syncCoinsData_volume_filter :
    (∀ (coins : List Coin) (gcd : String → Except String CoinDataPayload)
       (gct : String → Nat → Except String TickersPayload) (duf : CoinDetail → Bool)
       (tuf : CoinTicker → Bool) (now : Int) (fuel : Nat) (minTotalVolume : Rat)
       (ddb : List CoinDetail) (tdb : List CoinTicker),
       (coinService.SyncCoinsData (Except.ok coins) gcd gct duf tuf now fuel minTotalVolume
         ddb tdb).detailFetched =
         (coins.filter (fun c => volumeEligible minTotalVolume c)).map Coin.coingeckoID) ∧
    (∀ (minTotalVolume : Rat) (c : Coin),
       volumeEligible minTotalVolume c = true ↔
         ∃ v, c.totalVolume = some v ∧ minTotalVolume ≤ v) := by
  constructor
  · intro coins gcd gct duf tuf now fuel minTotalVolume ddb tdb
    unfold coinService.SyncCoinsData
    exact syncCoinsDataGo_trace gcd gct duf tuf now fuel _ ddb tdb
  · intro minTotalVolume c
    unfold volumeEligible
    cases h : c.totalVolume with
    | none => simp
    | some v => simp

/-- Witness for the amended C7: of two concrete coins with volumes
2,000,000 and 1,000,000 under threshold 1,500,000, the loop runs for
exactly the first, and its eligibility is characterized by >=. -/
theorem syncCoinsData_volume_filter_witness :
    (coinService.SyncCoinsData (Except.ok [sampleCoin, thresholdCoin])
      (fun _ => Except.error "net down") (fun _ _ => Except.error "net down")
      (fun _ => false) (fun _ => false) 0 1 1500000 [] []).detailFetched =
      (([sampleCoin, thresholdCoin]).filter
        (fun c => volumeEligible 1500000 c)).map Coin.coingeckoID ∧
    (volumeEligible 1500000 sampleCoin = true ↔
      ∃ v, sampleCoin.totalVolume = some v ∧ (1500000 : Rat) ≤ v) :=
  ⟨syncCoinsData_volume_filter.1 [sampleCoin, thresholdCoin] _ _ _ _ 0 1 1500000 [] [],
   syncCoinsData_volume_filter.2 1500000 sampleCoin⟩

/-- C8: during the volume-filtered sync, detail or ticker fetch
failures never abort the run: whatever the fetch oracles return, the
sync returns success, every volume-eligible coin still gets its detail
fetch attempted (failing coins are skipped, the loop proceeds), and
when every detail fetch fails the stores are simply left untouched
while the sync still succeeds. -/
theorem syncCoinsData_fetch_failure_tolerant :
    (∀ (coins : List Coin) (gcd : String → Except String CoinDataPayload)
       (gct : String → Nat → Except String TickersPayload) (duf : CoinDetail → Bool)
       (tuf : CoinTicker → Bool) (now : Int) (fuel : Nat) (minTotalVolume : Rat)
       (ddb : List CoinDetail) (tdb : List CoinTicker),
       (coinService.SyncCoinsData (Except.ok coins) gcd gct duf tuf now fuel minTotalVolume
         ddb tdb).err = none ∧
       (coinService.SyncCoinsData (Except.ok coins) gcd gct duf tuf now fuel minTotalVolume
         ddb tdb).detailFetched =
         (coins.filter (fun c => volumeEligible minTotalVolume c)).map Coin.coingeckoID) ∧
    (∀ (coins : List Coin) (gcd : String → Except String CoinDataPayload)
       (gct : String → Nat → Except String TickersPayload) (duf : CoinDetail → Bool)
       (tuf : CoinTicker → Bool) (now : Int) (fuel : Nat) (minTotalVolume : Rat)
       (ddb : List CoinDetail) (tdb : List CoinTicker),
       (∀ s, ∃ e, gcd s = Except.error e) →
       (coinService.SyncCoinsData (Except.ok coins) gcd gct duf tuf now fuel minTotalVolume
         ddb tdb).detailsState = ddb ∧
       (coinService.SyncCoinsData (Except.ok coins) gcd gct duf tuf now fuel minTotalVolume
         ddb tdb).tickersState = tdb ∧
       (coinService.SyncCoinsData (Except.ok coins) gcd gct duf tuf now fuel minTotalVolume
         ddb tdb).err = none) := by
  constructor
  · intro coins gcd gct duf tuf now fuel minTotalVolume ddb tdb
    unfold coinService.SyncCoinsData
    exact ⟨syncCoinsDataGo_err gcd gct duf tuf now fuel _ ddb tdb,
      syncCoinsDataGo_trace gcd gct duf tuf now fuel _ ddb tdb⟩
  · intro coins gcd gct duf tuf now fuel minTotalVolume ddb tdb hfail
    unfold coinService.SyncCoinsData
    exact ⟨(syncCoinsDataGo_skip_all gcd gct duf tuf now fuel hfail _ ddb tdb).1,
      (syncCoinsDataGo_skip_all gcd gct duf tuf now fuel hfail _ ddb tdb).2,
      syncCoinsDataGo_err gcd gct duf tuf now fuel _ ddb tdb⟩

/-- Witness for C8: with every detail fetch failing concretely, the
sync still succeeds and leaves the stores untouched. -/
theorem syncCoinsData_fetch_failure_tolerant_witness :
    ((coinService.SyncCoinsData (Except.ok [sampleCoin]) (fun _ => Except.error "boom")
      (fun _ _ => Except.error "boom") (fun _ => false) (fun _ => false) 0 1 0 [] []).err =
      none ∧
     (coinService.SyncCoinsData (Except.ok [sampleCoin]) (fun _ => Except.error "boom")
      (fun _ _ => Except.error "boom") (fun _ => false) (fun _ => false)
      0 1 0 [] []).detailFetched =
      (([sampleCoin]).filter (fun c => volumeEligible 0 c)).map Coin.coingeckoID) ∧
    ((coinService.SyncCoinsData (Except.ok [sampleCoin]) (fun _ => Except.error "boom")
      (fun _ _ => Except.error "boom") (fun _ => false) (fun _ => false)
      0 1 0 [] []).detailsState = [] ∧
     (coinService.SyncCoinsData (Except.ok [sampleCoin]) (fun _ => Except.error "boom")
      (fun _ _ => Except.error "boom") (fun _ => false) (fun _ => false)
      0 1 0 [] []).tickersState = [] ∧
     (coinService.SyncCoinsData (Except.ok [sampleCoin]) (fun _ => Except.error "boom")
      (fun _ _ => Except.error "boom") (fun _ => false) (fun _ => false) 0 1 0 [] []).err =
      none) :=
  ⟨syncCoinsData_fetch_failure_tolerant.1 [sampleCoin] _ _ _ _ 0 1 0 [] [],
   syncCoinsData_fetch_failure_tolerant.2 [sampleCoin] _ _ _ _ 0 1 0 [] []
     (fun _ => ⟨"boom", rfl⟩)⟩

/-- A /coins/{id} payload with no denormalized fields. -/
def samplePayload : CoinDataPayload :=
  { raw := "detail json", genesisDate := none, hashingAlgo := none, categories := none,
    homepage := none, lastUpdatedAt := none }

/-- A tickers payload whose tickers array is empty. -/
def sampleTickersPayload : TickersPayload :=
  { raw := "tickers json", tickers := some [] }

/-- Counterexample to C9: a run in which every detail upsert and every
ticker upsert fails (storage errors) still returns success and stores
nothing: the storage errors arising while persisting coin details and
ticker payloads are logged or discarded, not surfaced. -/
theorem syncCoinsData_storage_error_swallowed_counterexample :
    (coinService.SyncCoinsData (Except.ok [sampleCoin]) (fun _ => Except.ok samplePayload)
      (fun _ _ => Except.ok sampleTickersPayload) (fun _ => true) (fun _ => true) 0 1 0
      [] []).err = none ∧
    (coinService.SyncCoinsData (Except.ok [sampleCoin]) (fun _ => Except.ok samplePayload)
      (fun _ _ => Except.ok sampleTickersPayload) (fun _ => true) (fun _ => true) 0 1 0
      [] []).detailsState = [] ∧
    (coinService.SyncCoinsData (Except.ok [sampleCoin]) (fun _ => Except.ok samplePayload)
      (fun _ _ => Except.ok sampleTickersPayload) (fun _ => true) (fun _ => true) 0 1 0
      [] []).tickersState = [] := by
  refine ⟨rfl, rfl, rfl⟩

/-- C9 amended: in SyncCoinsData, the error loading the coin list is
wrapped with context and propagated; but storage errors from
persisting coin details or ticker payloads (and per-coin fetch
failures) are logged or discarded: the sync returns success whatever
the detail/ticker upsert oracles report. -/
theorem syncCoinsData_error_propagation :
    (∀ (e : String) (gcd : String → Except String CoinDataPayload)
       (gct : String → Nat → Except String TickersPayload) (duf : CoinDetail → Bool)
       (tuf : CoinTicker → Bool) (now : Int) (fuel : Nat) (minTotalVolume : Rat)
       (ddb : List CoinDetail) (tdb : List CoinTicker),
       (coinService.SyncCoinsData (Except.error e) gcd gct duf tuf now fuel minTotalVolume
         ddb tdb).err = some ("failed to load coins: " ++ e)) ∧
    (∀ (coins : List Coin) (gcd : String → Except String CoinDataPayload)
       (gct : String → Nat → Except String TickersPayload) (duf : CoinDetail → Bool)
       (tuf : CoinTicker → Bool) (now : Int) (fuel : Nat) (minTotalVolume : Rat)
       (ddb : List CoinDetail) (tdb : List CoinTicker),
       (coinService.SyncCoinsData (Except.ok coins) gcd gct duf tuf now fuel minTotalVolume
         ddb tdb).err = none) := by
  constructor
  · intro e gcd gct duf tuf now fuel minTotalVolume ddb tdb
    rfl
  · intro coins gcd gct duf tuf now fuel minTotalVolume ddb tdb
    unfold coinService.SyncCoinsData
    exact syncCoinsDataGo_err gcd gct duf tuf now fuel _ ddb tdb

/-- Witness for the amended C9: the concrete load failure is wrapped
and surfaced; a concrete run with failing storage oracles returns
success. -/
theorem syncCoinsData_error_propagation_witness :
    (coinService.SyncCoinsData (Except.error "db down") (fun _ => Except.ok samplePayload)
      (fun _ _ => Except.ok sampleTickersPayload) (fun _ => true) (fun _ => true) 0 1 0
      [] []).err = some ("failed to load coins: " ++ "db down") ∧
    (coinService.SyncCoinsData (Except.ok [sampleCoin]) (fun _ => Except.ok samplePayload)
      (fun _ _ => Except.ok sampleTickersPayload) (fun _ => true) (fun _ => true) 0 1 0
      [] []).err = none :=
  ⟨syncCoinsData_error_propagation.1 "db down" _ _ _ _ 0 1 0 [] [],
   syncCoinsData_error_propagation.2 [sampleCoin] _ _ _ _ 0 1 0 [] []⟩
